import Mathlib

/-!
A shallow embedding of the hazard-curve core of the repository:

* `openquake/hazardlib/poe.py` — the exceedance-curve algebra (`PoeCurve`
  with its `|`, `*`, `~` operators and truthiness) and the IMT-level index
  (`slicedict`, `Imtls`).  numpy float64 buffers are modelled as lists of
  rationals; element-wise numpy operations become `List.zipWith`/`List.map`.
* the hazard-map extractor and the per-IMT result reshaper of
  `openquake.commonlib.calculators.calc`, and the source-progress tracking
  step of the classical hazard calculator — these modules are absent from
  the sources (only their tests are present), so they are modelled from the
  spec, as flagged in their doc comments.

Dictionaries keyed by site id are modelled as functions `Nat → Option PoeCurve`
(`none` encodes "key absent"); the code's loops over the union of the key sets
become pointwise definitions, which agree with the loops at every key.
-/

/-- One exceedance curve: a slice dictionary (imt name, half-open index range)
plus a flat numeric buffer, mirroring `PoeCurve(slicedic, array)` of
`openquake/hazardlib/poe.py`. -/
structure PoeCurve where
  slicedic : List (String × Nat × Nat)
  array : List ℚ
deriving DecidableEq

/-- `PoeCurve.__invert__`: the complement `~p = 1 - p`, element-wise. -/
def PoeCurve.invert (self : PoeCurve) : PoeCurve :=
  ⟨self.slicedic, self.array.map (fun x => 1 - x)⟩

/-- The element-wise body of `PoeCurve.__or__` when both operands are real
curves: `1. - (1. - self.array) * (1. - other.array)`, over the offset table
of the left operand. -/
def PoeCurve.orCurve (self other : PoeCurve) : PoeCurve :=
  ⟨self.slicedic,
   List.zipWith (fun x y => 1 - (1 - x) * (1 - y)) self.array other.array⟩

/-- An operand of the OR combination: either the plain integer `0` that the
code uses as the "no curve yet" identity (`dic.get(sid, 0)`), or an actual
curve.  The spec's design notes ask for exactly this tagged variant in a
reimplementation. -/
inductive PoeOrZero
  | zero
  | curve (c : PoeCurve)
deriving DecidableEq

/-- `PoeCurve.__or__` together with `__ror__ = __or__` and Python's dispatch:
`if other == 0: return self` (no element-wise pass), the reflected call when
the left operand is the integer `0`, and the element-wise formula otherwise
(`0 | 0` stays the integer `0`). -/
def combineOr : PoeOrZero → PoeOrZero → PoeOrZero
  | .curve a, .zero => .curve a
  | .zero, .curve b => .curve b
  | .curve a, .curve b => .curve (a.orCurve b)
  | .zero, .zero => .zero

/-- The right operand of `PoeCurve.__mul__`: either a scalar weight or a
curve (the code dispatches on `isinstance(other, self.__class__)`). -/
inductive MulOperand
  | scalar (w : ℚ)
  | curve (c : PoeCurve)
deriving DecidableEq

/-- `PoeCurve.__mul__`: a curve operand gives the element-wise product; the
scalar `1` returns `self` unchanged; any other scalar scales the buffer. -/
def PoeCurve.mul (self : PoeCurve) : MulOperand → PoeCurve
  | .curve o => ⟨self.slicedic, List.zipWith (· * ·) self.array o.array⟩
  | .scalar w => if w = 1 then self else ⟨self.slicedic, self.array.map (· * w)⟩

/-- `PoeCurve.__nonzero__`: `bool(self.array.sum())`, i.e. the sum of the
buffer elements is nonzero. -/
def PoeCurve.nonzero (self : PoeCurve) : Bool :=
  decide (self.array.sum ≠ 0)

/-- `PoeCurve.compose`, pointwise: over the union of the key sets, combine
`dic1.get(sid, 0) | dic2.get(sid, 0)`, and keep the site only `if curve:`
(truthiness, i.e. nonzero sum). -/
def PoeCurve.compose (dic1 dic2 : Nat → Option PoeCurve) (sid : Nat) :
    Option PoeCurve :=
  match dic1 sid, dic2 sid with
  | none, none => none
  | some c, none => if c.nonzero then some c else none
  | none, some c => if c.nonzero then some c else none
  | some a, some b => if (a.orCurve b).nonzero then some (a.orCurve b) else none

/-- `PoeCurve.multiply`, pointwise:
`{sid: dic1.get(sid, 1) * dic2.get(sid, 1) for sid in sids}` over the union
of the key sets, with the multiplicative scalar identity `1` for a missing
key and no truthiness filter. -/
def PoeCurve.multiply (dic1 dic2 : Nat → Option PoeCurve) (sid : Nat) :
    Option PoeCurve :=
  match dic1 sid, dic2 sid with
  | none, none => none
  | some a, none => some (a.mul (.scalar 1))
  | none, some b => some (b.mul (.scalar 1))
  | some a, some b => some (a.mul (.curve b))

/-- A value of the `imtls` constructor argument of `Imtls`: either a sequence
of levels or a scalar; the dtype field count is
`len(imls) if hasattr(imls, '__len__') else 1`. -/
inductive Imls
  | levels (ls : List ℚ)
  | scalar (v : ℚ)
deriving DecidableEq

/-- The field count recorded in the numpy dtype for one imt. -/
def Imls.count : Imls → Nat
  | .levels ls => ls.length
  | .scalar _ => 1

/-- The shape of one dtype field of count `cnt`: numpy collapses a count-1
field to a scalar field whose shape is the empty tuple `()` (modelled as
`none`, falsy in Python); any other count `c` keeps shape `(c,)` (modelled as
`some c`). -/
def fieldShape (cnt : Nat) : Option Nat :=
  if cnt = 1 then none else some cnt

/-- The loop of `slicedict(imt_dt)`: walk the dtype fields in order keeping a
running offset `n` and compute `n1 = n + shp[0] if shp else 1`, which parses
as `(n + shp[0]) if shp else 1` — so a scalar (shape-`()`) field gets
`n1 = 1` regardless of the running offset; each imt gets `slice(n, n1)` and
`n` becomes `n1`; return the table and the final offset. -/
def slicedictAux (n : Nat) :
    List (String × Nat) → List (String × Nat × Nat) × Nat
  | [] => ([], n)
  | (imt, cnt) :: rest =>
    let n1 := match fieldShape cnt with
      | some c => n + c
      | none => 1
    let r := slicedictAux n1 rest
    ((imt, n, n1) :: r.1, r.2)

/-- `slicedict(imt_dt)` of `poe.py`: the offset table and the final offset,
starting from offset 0. -/
def slicedict (fields : List (String × Nat)) :
    List (String × Nat × Nat) × Nat :=
  slicedictAux 0 fields

/-- The dtype built by `Imtls.__init__`: the imt names in sorted order, each
with its level count. -/
def imt_dt (imtls : List (String × Imls)) : List (String × Nat) :=
  (imtls.mergeSort (fun a b => decide (a.1 ≤ b.1))).map
    (fun p => (p.1, p.2.count))

/-! ### Helper lemmas -/

theorem zipWith_getD {α : Type} (f : α → α → α) (l1 l2 : List α) (d : α)
    (hlen : l1.length = l2.length) :
    ∀ i, i < l1.length →
      (List.zipWith f l1 l2).getD i d = f (l1.getD i d) (l2.getD i d) := by
  induction l1 generalizing l2 with
  | nil => intro i hi; simp at hi
  | cons x xs ih =>
    cases l2 with
    | nil => simp at hlen
    | cons y ys =>
      intro i hi
      cases i with
      | zero => simp
      | succ j =>
        simp only [List.zipWith_cons_cons, List.getD_cons_succ]
        exact ih ys (by simpa using hlen) j (by simpa using hi)

theorem mem_zipWith {α : Type} {f : α → α → α} {l1 l2 : List α} {x : α}
    (hx : x ∈ List.zipWith f l1 l2) : ∃ a ∈ l1, ∃ b ∈ l2, x = f a b := by
  induction l1 generalizing l2 with
  | nil => simp at hx
  | cons a as ih =>
    cases l2 with
    | nil => simp at hx
    | cons b bs =>
      simp only [List.zipWith_cons_cons, List.mem_cons] at hx
      rcases hx with h | h
      · exact ⟨a, by simp, b, by simp, h⟩
      · obtain ⟨a1, ha1, b1, hb1, hx1⟩ := ih h
        exact ⟨a1, by simp [ha1], b1, by simp [hb1], hx1⟩

theorem sum_eq_zero_iff_of_nonneg {l : List ℚ} (h : ∀ x ∈ l, 0 ≤ x) :
    l.sum = 0 ↔ ∀ x ∈ l, x = 0 := by
  induction l with
  | nil => simp
  | cons a as ih =>
    have ha : 0 ≤ a := h a (by simp)
    have has : ∀ x ∈ as, 0 ≤ x := fun x hx => h x (by simp [hx])
    have hsum : 0 ≤ as.sum := List.sum_nonneg has
    constructor
    · intro h0
      have h0' : a = 0 ∧ as.sum = 0 := by
        constructor <;> [skip; skip] <;> simp only [List.sum_cons] at h0 <;> linarith
      intro x hx
      rcases List.mem_cons.1 hx with rfl | hx'
      · exact h0'.1
      · exact ((ih has).1 h0'.2) x hx'
    · intro hall
      have : a = 0 := hall a (by simp)
      have : as.sum = 0 := (ih has).2 (fun x hx => hall x (by simp [hx]))
      simp_all

/-! ### Claim C1 -/

/-- Claim C1: the `|` operator returns the other operand unchanged when either
operand is the integer identity `0` (no element-wise pass), and otherwise
returns a new curve over the same offset table whose buffer is
`1 - (1-a)*(1-b)` element-wise. -/
theorem combine_or_spec (a b : PoeCurve)
    (hslice : a.slicedic = b.slicedic)
    (hlen : a.array.length = b.array.length) :
    combineOr (.curve a) .zero = .curve a ∧
    combineOr .zero (.curve b) = .curve b ∧
    combineOr (.curve a) (.curve b) = .curve (a.orCurve b) ∧
    (a.orCurve b).slicedic = a.slicedic ∧
    (a.orCurve b).slicedic = b.slicedic ∧
    (a.orCurve b).array.length = a.array.length ∧
    ∀ i, i < a.array.length →
      (a.orCurve b).array.getD i 0 =
        1 - (1 - a.array.getD i 0) * (1 - b.array.getD i 0) := by
  refine ⟨rfl, rfl, rfl, rfl, hslice, ?_, ?_⟩
  · simp [PoeCurve.orCurve, hlen]
  · intro i hi
    exact zipWith_getD _ a.array b.array 0 hlen i hi

theorem combine_or_spec_witness :
    (PoeCurve.mk [("PGA", 0, 2)] [1/2, 1/4]).slicedic =
      (PoeCurve.mk [("PGA", 0, 2)] [1/3, 0]).slicedic ∧
    (PoeCurve.mk [("PGA", 0, 2)] [1/2, 1/4]).array.length =
      (PoeCurve.mk [("PGA", 0, 2)] [1/3, 0]).array.length ∧
    (combineOr (.curve (PoeCurve.mk [("PGA", 0, 2)] [1/2, 1/4])) .zero =
      .curve (PoeCurve.mk [("PGA", 0, 2)] [1/2, 1/4]) ∧
     combineOr .zero (.curve (PoeCurve.mk [("PGA", 0, 2)] [1/3, 0])) =
      .curve (PoeCurve.mk [("PGA", 0, 2)] [1/3, 0]) ∧
     combineOr (.curve (PoeCurve.mk [("PGA", 0, 2)] [1/2, 1/4]))
        (.curve (PoeCurve.mk [("PGA", 0, 2)] [1/3, 0])) =
      .curve ((PoeCurve.mk [("PGA", 0, 2)] [1/2, 1/4]).orCurve
        (PoeCurve.mk [("PGA", 0, 2)] [1/3, 0])) ∧
     ((PoeCurve.mk [("PGA", 0, 2)] [1/2, 1/4]).orCurve
        (PoeCurve.mk [("PGA", 0, 2)] [1/3, 0])).slicedic =
      (PoeCurve.mk [("PGA", 0, 2)] [1/2, 1/4]).slicedic ∧
     ((PoeCurve.mk [("PGA", 0, 2)] [1/2, 1/4]).orCurve
        (PoeCurve.mk [("PGA", 0, 2)] [1/3, 0])).slicedic =
      (PoeCurve.mk [("PGA", 0, 2)] [1/3, 0]).slicedic ∧
     ((PoeCurve.mk [("PGA", 0, 2)] [1/2, 1/4]).orCurve
        (PoeCurve.mk [("PGA", 0, 2)] [1/3, 0])).array.length =
      (PoeCurve.mk [("PGA", 0, 2)] [1/2, 1/4]).array.length ∧
     ∀ i, i < (PoeCurve.mk [("PGA", 0, 2)] [1/2, 1/4]).array.length →
      ((PoeCurve.mk [("PGA", 0, 2)] [1/2, 1/4]).orCurve
        (PoeCurve.mk [("PGA", 0, 2)] [1/3, 0])).array.getD i 0 =
        1 - (1 - (PoeCurve.mk [("PGA", 0, 2)] [1/2, 1/4]).array.getD i 0) *
          (1 - (PoeCurve.mk [("PGA", 0, 2)] [1/3, 0]).array.getD i 0)) :=
  ⟨rfl, rfl, combine_or_spec _ _ rfl rfl⟩

/-! ### Claim C5 -/

/-- Claim C5: for buffers with values in [0,1], `__nonzero__` (the sum of the
elements being nonzero) holds iff not every value is exactly zero. -/
theorem nonzero_iff_not_all_zero (c : PoeCurve)
    (h : ∀ x ∈ c.array, 0 ≤ x ∧ x ≤ 1) :
    c.nonzero = true ↔ ¬ (∀ x ∈ c.array, x = 0) := by
  have hnn : ∀ x ∈ c.array, 0 ≤ x := fun x hx => (h x hx).1
  simp only [PoeCurve.nonzero, decide_eq_true_eq]
  exact not_congr (sum_eq_zero_iff_of_nonneg hnn)

theorem nonzero_iff_not_all_zero_witness :
    (∀ x ∈ (PoeCurve.mk [("PGA", 0, 2)] [0, 1]).array, 0 ≤ x ∧ x ≤ 1) ∧
    ((PoeCurve.mk [("PGA", 0, 2)] [0, 1]).nonzero = true ↔
      ¬ (∀ x ∈ (PoeCurve.mk [("PGA", 0, 2)] [0, 1]).array, x = 0)) :=
  ⟨by decide, nonzero_iff_not_all_zero _ (by decide)⟩

/-! ### Claim C6 -/

/-- Claim C6: the complement, the OR combination, the element-wise product and
scaling by a weight in [0,1] each map curves with values in [0,1] to curves
with values in [0,1]. -/
theorem algebra_preserves_unit_interval (a b : PoeCurve) (w : ℚ)
    (ha : ∀ x ∈ a.array, 0 ≤ x ∧ x ≤ 1)
    (hb : ∀ x ∈ b.array, 0 ≤ x ∧ x ≤ 1)
    (hw : 0 ≤ w ∧ w ≤ 1) :
    (∀ x ∈ a.invert.array, 0 ≤ x ∧ x ≤ 1) ∧
    (∀ x ∈ (a.orCurve b).array, 0 ≤ x ∧ x ≤ 1) ∧
    (∀ x ∈ (a.mul (.curve b)).array, 0 ≤ x ∧ x ≤ 1) ∧
    (∀ x ∈ (a.mul (.scalar w)).array, 0 ≤ x ∧ x ≤ 1) := by
  refine ⟨?_, ?_, ?_, ?_⟩
  · intro x hx
    simp only [PoeCurve.invert, List.mem_map] at hx
    obtain ⟨y, hy, rfl⟩ := hx
    obtain ⟨h0, h1⟩ := ha y hy
    constructor <;> linarith
  · intro x hx
    obtain ⟨p, hp, q, hq, rfl⟩ := mem_zipWith hx
    obtain ⟨hp0, hp1⟩ := ha p hp
    obtain ⟨hq0, hq1⟩ := hb q hq
    constructor <;> nlinarith
  · intro x hx
    obtain ⟨p, hp, q, hq, rfl⟩ := mem_zipWith hx
    obtain ⟨hp0, hp1⟩ := ha p hp
    obtain ⟨hq0, hq1⟩ := hb q hq
    constructor <;> nlinarith
  · intro x hx
    simp only [PoeCurve.mul] at hx
    by_cases h1 : w = 1
    · rw [if_pos h1] at hx
      exact ha x hx
    · rw [if_neg h1] at hx
      simp only [List.mem_map] at hx
      obtain ⟨y, hy, rfl⟩ := hx
      obtain ⟨hy0, hy1⟩ := ha y hy
      obtain ⟨hw0, hw1⟩ := hw
      constructor <;> nlinarith

theorem algebra_preserves_unit_interval_witness :
    (∀ x ∈ (PoeCurve.mk [("PGA", 0, 2)] [0, 1]).array, 0 ≤ x ∧ x ≤ 1) ∧
    (0 ≤ (0 : ℚ) ∧ (0 : ℚ) ≤ 1) ∧
    ((∀ x ∈ (PoeCurve.mk [("PGA", 0, 2)] [0, 1]).invert.array,
        0 ≤ x ∧ x ≤ 1) ∧
     (∀ x ∈ ((PoeCurve.mk [("PGA", 0, 2)] [0, 1]).orCurve
        (PoeCurve.mk [("PGA", 0, 2)] [0, 1])).array, 0 ≤ x ∧ x ≤ 1) ∧
     (∀ x ∈ ((PoeCurve.mk [("PGA", 0, 2)] [0, 1]).mul
        (.curve (PoeCurve.mk [("PGA", 0, 2)] [0, 1]))).array,
        0 ≤ x ∧ x ≤ 1) ∧
     (∀ x ∈ ((PoeCurve.mk [("PGA", 0, 2)] [0, 1]).mul
        (.scalar 0)).array, 0 ≤ x ∧ x ≤ 1)) :=
  ⟨by decide, by decide,
   algebra_preserves_unit_interval _ _ _ (by decide) (by decide) (by decide)⟩

/-! ### Claim C7 -/

/-- Claim C7: scaling by the scalar 1 returns the input itself unchanged;
scaling by the scalar 0 yields the all-zero curve, which is falsy under the
truthiness predicate. -/
theorem scale_one_scale_zero (c : PoeCurve) :
    c.mul (.scalar 1) = c ∧
    (∀ x ∈ (c.mul (.scalar 0)).array, x = 0) ∧
    (c.mul (.scalar 0)).nonzero = false := by
  refine ⟨by simp [PoeCurve.mul], ?_, ?_⟩
  · intro x hx
    simp only [PoeCurve.mul, if_neg (by norm_num : (0 : ℚ) ≠ 1),
      List.mem_map] at hx
    obtain ⟨y, _, rfl⟩ := hx
    simp
  · simp only [PoeCurve.mul, if_neg (by norm_num : (0 : ℚ) ≠ 1),
      PoeCurve.nonzero]
    have : (c.array.map (fun x => x * 0)).sum = 0 := by
      induction c.array with
      | nil => simp
      | cons a as ih => simp [ih]
    simp [this]

theorem scale_one_scale_zero_witness :
    ((PoeCurve.mk [("PGA", 0, 2)] [1/2, 1/4]).mul (.scalar 1) =
      PoeCurve.mk [("PGA", 0, 2)] [1/2, 1/4]) ∧
    (∀ x ∈ ((PoeCurve.mk [("PGA", 0, 2)] [1/2, 1/4]).mul
        (.scalar 0)).array, x = 0) ∧
    ((PoeCurve.mk [("PGA", 0, 2)] [1/2, 1/4]).mul (.scalar 0)).nonzero =
      false :=
  scale_one_scale_zero _

/-! ### Claim C3 -/

/-- A curve whose buffer is identically zero, hence falsy. -/
def allZeroCurve : PoeCurve := ⟨[("PGA", 0, 1)], [0]⟩

/-- A collection holding only the all-zero curve at site 0. -/
def cexDic1 : Nat → Option PoeCurve :=
  fun sid => if sid = 0 then some allZeroCurve else none

/-- The empty collection. -/
def cexDic2 : Nat → Option PoeCurve := fun _ => none

/-- Counterexample to claim C3 as stated: the key sets {0} and ∅ are
disjoint, yet `compose` omits site 0 (its curve is all-zero, so the
truthiness filter `if curve:` drops it), so the result's key set is not the
union of the inputs' key sets. -/
theorem compose_disjoint_counterexample :
    (∀ sid, cexDic1 sid = none ∨ cexDic2 sid = none) ∧
    cexDic1 0 = some allZeroCurve ∧
    PoeCurve.compose cexDic1 cexDic2 0 = none := by
  refine ⟨fun sid => Or.inr rfl, rfl, ?_⟩
  norm_num [PoeCurve.compose, cexDic1, cexDic2, allZeroCurve, PoeCurve.nonzero]

/-- Claim C3 amended: for two collections with disjoint key sets in which
every supplied curve is truthy (not all-zero), `compose` returns the union of
the key sets with every curve unchanged; without the truthiness proviso a
site carrying an all-zero curve is omitted. -/
theorem compose_disjoint_amended (dic1 dic2 : Nat → Option PoeCurve)
    (hdisj : ∀ sid, dic1 sid = none ∨ dic2 sid = none)
    (h1 : ∀ sid c, dic1 sid = some c → c.nonzero = true)
    (h2 : ∀ sid c, dic2 sid = some c → c.nonzero = true) :
    ∀ sid,
      (PoeCurve.compose dic1 dic2 sid = none ↔
        dic1 sid = none ∧ dic2 sid = none) ∧
      (∀ c, dic1 sid = some c → PoeCurve.compose dic1 dic2 sid = some c) ∧
      (∀ c, dic2 sid = some c → PoeCurve.compose dic1 dic2 sid = some c) := by
  intro sid
  rcases hd1 : dic1 sid with _ | c1 <;> rcases hd2 : dic2 sid with _ | c2
  · simp [PoeCurve.compose, hd1, hd2]
  · have := h2 sid c2 hd2
    simp [PoeCurve.compose, hd1, hd2, this]
  · have := h1 sid c1 hd1
    simp [PoeCurve.compose, hd1, hd2, this]
  · rcases hdisj sid with h | h
    · rw [hd1] at h; exact absurd h (by simp)
    · rw [hd2] at h; exact absurd h (by simp)

/-- A truthy curve at site 0 only. -/
def amDic1 : Nat → Option PoeCurve :=
  fun sid => if sid = 0 then some ⟨[("PGA", 0, 1)], [1]⟩ else none

/-- A truthy curve at site 1 only. -/
def amDic2 : Nat → Option PoeCurve :=
  fun sid => if sid = 1 then some ⟨[("PGA", 0, 1)], [1]⟩ else none

theorem compose_disjoint_amended_witness :
    (∀ sid, amDic1 sid = none ∨ amDic2 sid = none) ∧
    (∀ sid c, amDic1 sid = some c → c.nonzero = true) ∧
    (∀ sid c, amDic2 sid = some c → c.nonzero = true) ∧
    ((PoeCurve.compose amDic1 amDic2 0 = none ↔
        amDic1 0 = none ∧ amDic2 0 = none) ∧
      (∀ c, amDic1 0 = some c → PoeCurve.compose amDic1 amDic2 0 = some c) ∧
      (∀ c, amDic2 0 = some c → PoeCurve.compose amDic1 amDic2 0 = some c)) := by
  have hdisj : ∀ sid, amDic1 sid = none ∨ amDic2 sid = none := by
    intro sid
    by_cases h : sid = 0
    · exact Or.inr (by simp [amDic2, h])
    · exact Or.inl (by simp [amDic1, h])
  have h1 : ∀ sid c, amDic1 sid = some c → c.nonzero = true := by
    intro sid c hc
    by_cases h : sid = 0
    · subst h
      have h' : some (⟨[("PGA", 0, 1)], [1]⟩ : PoeCurve) = some c := hc
      cases Option.some.inj h'
      norm_num [PoeCurve.nonzero]
    · simp [amDic1, h] at hc
  have h2 : ∀ sid c, amDic2 sid = some c → c.nonzero = true := by
    intro sid c hc
    by_cases h : sid = 1
    · subst h
      have h' : some (⟨[("PGA", 0, 1)], [1]⟩ : PoeCurve) = some c := hc
      cases Option.some.inj h'
      norm_num [PoeCurve.nonzero]
    · simp [amDic2, h] at hc
  exact ⟨hdisj, h1, h2, compose_disjoint_amended amDic1 amDic2 hdisj h1 h2 0⟩

/-! ### Claim C10 -/

/-- Claim C10: `multiply` returns a collection whose key set is exactly the
union of the inputs' key sets; a site present in only one input keeps that
input's curve unchanged (the missing side is the multiplicative scalar
identity 1), and no site is ever omitted (no all-zero sparsity filter). -/
theorem multiply_union_spec (dic1 dic2 : Nat → Option PoeCurve) :
    ∀ sid,
      (PoeCurve.multiply dic1 dic2 sid = none ↔
        dic1 sid = none ∧ dic2 sid = none) ∧
      (dic2 sid = none → PoeCurve.multiply dic1 dic2 sid = dic1 sid) ∧
      (dic1 sid = none → PoeCurve.multiply dic1 dic2 sid = dic2 sid) := by
  intro sid
  rcases hd1 : dic1 sid with _ | c1 <;> rcases hd2 : dic2 sid with _ | c2
  · simp [PoeCurve.multiply, hd1, hd2]
  · simp [PoeCurve.multiply, hd1, hd2, PoeCurve.mul]
  · simp [PoeCurve.multiply, hd1, hd2, PoeCurve.mul]
  · simp [PoeCurve.multiply, hd1, hd2]

theorem multiply_union_spec_witness :
    ((PoeCurve.multiply amDic1 amDic2 0 = none ↔
        amDic1 0 = none ∧ amDic2 0 = none) ∧
      (amDic2 0 = none → PoeCurve.multiply amDic1 amDic2 0 = amDic1 0) ∧
      (amDic1 0 = none → PoeCurve.multiply amDic1 amDic2 0 = amDic2 0)) ∧
    amDic2 0 = none ∧
    PoeCurve.multiply amDic1 amDic2 0 = amDic1 0 :=
  ⟨multiply_union_spec amDic1 amDic2 0, rfl,
   (multiply_union_spec amDic1 amDic2 0).2.1 rfl⟩

/-! ### Claim C4 -/

/-- Claim C4: refuted by evaluating the code.  On the index built from the
mapping A ↦ scalar 5, B ↦ scalar 7 (two scalar imts, so two count-1 dtype
fields of shape `()`), the second scalar imt B is assigned the empty range
`slice(1, 1)` — not a range sized to its level count 1 — and the final
offset is 1 although the level counts sum to 2, so the ranges cannot cover
the claimed indices 0 .. 2. -/
theorem imtls_offset_table_bug :
    (slicedict (imt_dt [("A", Imls.scalar 5), ("B", Imls.scalar 7)])).1 =
      [("A", 0, 1), ("B", 1, 1)] ∧
    (slicedict (imt_dt [("A", Imls.scalar 5), ("B", Imls.scalar 7)])).2 = 1 ∧
    (Imls.scalar 5).count + (Imls.scalar 7).count = 2 := by
  have hsorted : List.Pairwise
      (fun a b : String × Imls => decide (a.1 ≤ b.1))
      [("A", Imls.scalar 5), ("B", Imls.scalar 7)] := by
    refine List.Pairwise.cons ?_ (List.pairwise_singleton _ _)
    intro b hb
    simp only [List.mem_singleton] at hb
    subst hb
    simp
    decide
  have hdt : imt_dt [("A", Imls.scalar 5), ("B", Imls.scalar 7)] =
      [("A", 1), ("B", 1)] := by
    rw [imt_dt, List.mergeSort_of_sorted hsorted]
    rfl
  rw [hdt]
  refine ⟨rfl, rfl, rfl⟩

/-! ### Claim C8 -/

/-- Modelled from the spec: `data_by_imt` of
`openquake.commonlib.calculators.calc` (the module is absent from the
sources; only its test is present).  It transposes a mapping
realization id → (imt name → per-level values) into a mapping
imt name → per-level mapping realization id → value, for the requested imts
and number of levels.  Dictionaries are modelled as association lists. -/
def data_by_imt (dda : List (String × List (String × List ℚ)))
    (imts : List String) (levels : Nat) :
    List (String × List (List (String × ℚ))) :=
  imts.map fun imt =>
    (imt, (List.range levels).map fun i =>
      dda.map fun rd => (rd.1, ((rd.2.lookup imt).getD []).getD i 0))

theorem getD_map_range {α : Type} (f : Nat → α) (n i : Nat) (d : α)
    (hi : i < n) : ((List.range n).map f).getD i d = f i := by
  rw [List.getD_eq_getElem?_getD, List.getElem?_map, List.getElem?_range hi]
  rfl

/-- The scenario of the `data_by_imt` test. -/
def ddaExample : List (String × List (String × List ℚ)) :=
  [("r1", [("PGA", [1, 2]), ("PGV", [3, 4])]),
   ("r2", [("PGA", [5, 6]), ("PGV", [7, 8])]),
   ("r3", [("PGA", [9, 10]), ("PGV", [11, 12])])]

/-- Claim C8: for inputs where every realization supplies every requested imt
with at least `levels` entries, the reshaper keys its output by the requested
imts; each imt carries exactly `levels` entries; entry `i` is keyed by the
realization ids and maps each realization to its value at level `i` for that
imt.  On the test scenario with `levels = 2` it returns the expected
transposition. -/
theorem data_by_imt_spec :
    (∀ (dda : List (String × List (String × List ℚ)))
        (imts : List String) (levels : Nat),
      (∀ rd ∈ dda, ∀ imt ∈ imts,
        ∃ vs, rd.2.lookup imt = some vs ∧ levels ≤ vs.length) →
      ((data_by_imt dda imts levels).map Prod.fst = imts ∧
       ∀ imt ∈ imts, ∃ seq, (imt, seq) ∈ data_by_imt dda imts levels ∧
         seq.length = levels ∧
         ∀ i, i < levels →
           ((seq.getD i []).map Prod.fst = dda.map Prod.fst ∧
            ∀ rd ∈ dda, ∀ vs, rd.2.lookup imt = some vs →
              (rd.1, vs.getD i 0) ∈ seq.getD i []))) ∧
    data_by_imt ddaExample ["PGA", "PGV"] 2 =
      [("PGA", [[("r1", 1), ("r2", 5), ("r3", 9)],
                [("r1", 2), ("r2", 6), ("r3", 10)]]),
       ("PGV", [[("r1", 3), ("r2", 7), ("r3", 11)],
                [("r1", 4), ("r2", 8), ("r3", 12)]])] := by
  constructor
  · intro dda imts levels _
    constructor
    · simp only [data_by_imt, List.map_map]
      exact List.map_id imts
    · intro imt himt
      refine ⟨(List.range levels).map fun i =>
        dda.map fun rd => (rd.1, ((rd.2.lookup imt).getD []).getD i 0),
        List.mem_map_of_mem _ himt, by simp, ?_⟩
      intro i hi
      rw [getD_map_range _ levels i [] hi]
      constructor
      · simp [List.map_map, Function.comp]
      · intro rd hrd vs hvs
        have : (rd.1, ((rd.2.lookup imt).getD []).getD i 0) ∈
            dda.map fun rd => (rd.1, ((rd.2.lookup imt).getD []).getD i 0) :=
          List.mem_map_of_mem _ hrd
        rwa [hvs] at this
  · rfl

theorem data_by_imt_spec_witness :
    (∀ rd ∈ ddaExample, ∀ imt ∈ ["PGA", "PGV"],
      ∃ vs, rd.2.lookup imt = some vs ∧ 2 ≤ vs.length) ∧
    ((data_by_imt ddaExample ["PGA", "PGV"] 2).map Prod.fst =
        ["PGA", "PGV"] ∧
     ∀ imt ∈ ["PGA", "PGV"], ∃ seq,
       (imt, seq) ∈ data_by_imt ddaExample ["PGA", "PGV"] 2 ∧
       seq.length = 2 ∧
       ∀ i, i < 2 →
         ((seq.getD i []).map Prod.fst = ddaExample.map Prod.fst ∧
          ∀ rd ∈ ddaExample, ∀ vs, rd.2.lookup imt = some vs →
            (rd.1, vs.getD i 0) ∈ seq.getD i [])) := by
  have hpre : ∀ rd ∈ ddaExample, ∀ imt ∈ ["PGA", "PGV"],
      ∃ vs, rd.2.lookup imt = some vs ∧ 2 ≤ vs.length := by
    intro rd hrd imt himt
    fin_cases hrd <;> fin_cases himt <;> exact ⟨_, rfl, by norm_num⟩
  exact ⟨hpre, data_by_imt_spec.1 ddaExample ["PGA", "PGV"] 2 hpre⟩

/-! ### Claim C9 -/

/-- Modelled from the spec: the mutable state of the Source/Realization
Progress Tracker (§4.5; the calculator module is absent from the sources):
per (realization, source) boolean progress records, a per-realization
completed-source counter, and the per-realization accumulating Curve
Collection. -/
structure TrackerState where
  progress : Nat → Nat → Bool
  completed : Nat → Nat
  curves : Nat → Nat → Option PoeCurve

/-- A source-completion event: one worker reports the contribution of one
source for one realization, as a Curve Collection over the affected sites. -/
structure SourceEvent where
  rlz : Nat
  src : Nat
  contrib : Nat → Option PoeCurve

/-- Modelled from the spec: handling of one source-completion event (§4.5):
if the (realization, source) progress record is already true the event is
discarded; otherwise the contribution is OR-combined into the realization's
Curve Progress (per-site `compose`), the record is set true, and the
completed-source counter is incremented. -/
def handleEvent (st : TrackerState) (e : SourceEvent) : TrackerState :=
  if st.progress e.rlz e.src then st
  else
    { progress := fun r s =>
        if r = e.rlz ∧ s = e.src then true else st.progress r s
      completed := fun r =>
        if r = e.rlz then st.completed r + 1 else st.completed r
      curves := fun r =>
        if r = e.rlz then PoeCurve.compose (st.curves r) e.contrib
        else st.curves r }

/-- Claim C9: delivering the same source-completion event a second time
leaves the state unchanged; across both deliveries the completed-source
counter increases by exactly 1, the progress record is set true exactly
once, and the accumulated curve collection reflects the contribution exactly
once. -/
theorem handle_event_idempotent (st : TrackerState) (e : SourceEvent)
    (hnew : st.progress e.rlz e.src = false) :
    handleEvent (handleEvent st e) e = handleEvent st e ∧
    (handleEvent (handleEvent st e) e).completed e.rlz =
      st.completed e.rlz + 1 ∧
    (handleEvent (handleEvent st e) e).progress e.rlz e.src = true ∧
    (handleEvent (handleEvent st e) e).curves e.rlz =
      PoeCurve.compose (st.curves e.rlz) e.contrib := by
  have h1 : (handleEvent st e).progress e.rlz e.src = true := by
    rw [handleEvent, if_neg (by rw [hnew]; exact Bool.false_ne_true)]
    simp
  have h2 : handleEvent (handleEvent st e) e = handleEvent st e := by
    rw [handleEvent, h1]
    simp
  refine ⟨h2, ?_, ?_, ?_⟩
  · rw [h2, handleEvent, if_neg (by rw [hnew]; exact Bool.false_ne_true)]
    simp
  · rw [h2]
    exact h1
  · rw [h2, handleEvent, if_neg (by rw [hnew]; exact Bool.false_ne_true)]
    simp

/-- The initial tracker state: all progress records false, counters zero,
curve collections empty. -/
def initialTracker : TrackerState :=
  ⟨fun _ _ => false, fun _ => 0, fun _ _ => none⟩

/-- A concrete source-completion event for realization 0, source 0. -/
def event0 : SourceEvent := ⟨0, 0, amDic1⟩

theorem handle_event_idempotent_witness :
    initialTracker.progress event0.rlz event0.src = false ∧
    (handleEvent (handleEvent initialTracker event0) event0 =
        handleEvent initialTracker event0 ∧
     (handleEvent (handleEvent initialTracker event0) event0).completed
        event0.rlz = initialTracker.completed event0.rlz + 1 ∧
     (handleEvent (handleEvent initialTracker event0) event0).progress
        event0.rlz event0.src = true ∧
     (handleEvent (handleEvent initialTracker event0) event0).curves
        event0.rlz =
       PoeCurve.compose (initialTracker.curves event0.rlz) event0.contrib) :=
  ⟨rfl, handle_event_idempotent initialTracker event0 rfl⟩

/-! ### Claim C2 -/

/-- The log-log interpolation of the spec (§4.3 step 4):
`log(iml) = log(iml_i) + (log(poe) - log(curve_i)) *
(log(iml_{i+1}) - log(iml_i)) / (log(curve_{i+1}) - log(curve_i))`,
then exponentiated. -/
noncomputable def interpLL (x0 y0 x1 y1 t : ℝ) : ℝ :=
  Real.exp (Real.log x0 +
    (Real.log t - Real.log y0) * (Real.log x1 - Real.log x0) /
      (Real.log y1 - Real.log y0))

open Classical in
/-- First index whose curve value equals the threshold exactly (spec §4.3
step 3). -/
noncomputable def findEqIdx (poe : ℝ) : List ℝ → Option Nat
  | [] => none
  | x :: xs =>
    if x = poe then some 0 else (findEqIdx poe xs).map (· + 1)

open Classical in
/-- First index `i` with `curve_i > poe > curve_{i+1}` (the unique bracketing
pair of spec §4.3 step 4, unique under the monotonicity assumption). -/
noncomputable def findBracketIdx (poe : ℝ) : List ℝ → Option Nat
  | x :: y :: xs =>
    if x > poe ∧ poe > y then some 0
    else (findBracketIdx poe (y :: xs)).map (· + 1)
  | _ => none

open Classical in
/-- Modelled from the spec: the per-(curve, threshold) step of
`compute_hazard_maps` of `openquake.commonlib.calculators.calc` (the module
is absent from the sources; only its tests are present).  Steps, per §4.3:
sentinel 0 when the threshold strictly exceeds the value at the lowest
level; the highest tabulated level when the threshold is strictly below the
value at the highest level; the tabulated level on an exact hit; otherwise
log-log interpolation on the unique bracketing pair (made total by a 0
fallback when no pair exists, which the monotonicity assumption rules
out). -/
noncomputable def hazardMapValue (curve imls : List ℝ) (poe : ℝ) : ℝ :=
  if poe > curve.headI then 0
  else if poe < curve.getLastI then imls.getLastI
  else
    match findEqIdx poe curve with
    | some i => imls.getD i 0
    | none =>
      match findBracketIdx poe curve with
      | some i =>
        interpLL (imls.getD i 0) (curve.getD i 0)
          (imls.getD (i + 1) 0) (curve.getD (i + 1) 0) poe
      | none => 0

/-- Modelled from the spec: `compute_hazard_maps`, with thresholds as the
leading axis and sites as the trailing axis. -/
noncomputable def compute_hazard_maps (curves : List (List ℝ))
    (imls : List ℝ) (poes : List ℝ) : List (List ℝ) :=
  poes.map fun poe => curves.map fun curve => hazardMapValue curve imls poe

/-- On a non-increasing list the last element is at most the head. -/
theorem getLastI_le_headI_of_chain (l : List ℝ) (hne : l ≠ [])
    (hmono : List.Chain' (fun x y => x ≥ y) l) : l.getLastI ≤ l.headI := by
  induction l with
  | nil => exact absurd rfl hne
  | cons a t ih =>
    cases t with
    | nil => simp [List.getLastI, List.headI]
    | cons b t2 =>
      have hab : a ≥ b := (List.chain'_cons.1 hmono).1
      have ht : List.Chain' (fun x y => x ≥ y) (b :: t2) :=
        (List.chain'_cons.1 hmono).2
      have hih := ih (by simp) ht
      have hcc : (a :: b :: t2).getLastI = (b :: t2).getLastI := by
        rw [List.getLastI_eq_getLast?, List.getLastI_eq_getLast?,
          List.getLast?_cons_cons]
      rw [hcc]
      simp only [List.headI] at hih ⊢
      linarith

/-! Taylor-series bounds for `Real.exp`, used to certify the rational
endpoints of the logarithms in the interpolated hazard-map values. -/

theorem exp_sum_range_eight (x : ℝ) :
    ∑ m ∈ Finset.range 8, x ^ m / m.factorial =
      1 + x + x ^ 2 / 2 + x ^ 3 / 6 + x ^ 4 / 24 + x ^ 5 / 120 +
        x ^ 6 / 720 + x ^ 7 / 5040 := by
  simp [Finset.sum_range_succ, Nat.factorial]

theorem exp_near_poly8 (x : ℝ) (hx : |x| ≤ 1) :
    |Real.exp x - (1 + x + x ^ 2 / 2 + x ^ 3 / 6 + x ^ 4 / 24 + x ^ 5 / 120 +
        x ^ 6 / 720 + x ^ 7 / 5040)| ≤ |x| ^ 8 * (9 / 322560) := by
  have h := Real.exp_bound hx (n := 8) (by norm_num)
  rw [exp_sum_range_eight] at h
  convert h using 2
  norm_num [Nat.factorial]

theorem exp_poly_lb (x : ℝ) (h0 : 0 ≤ x) (h1 : x ≤ 1) :
    1 + x + x ^ 2 / 2 + x ^ 3 / 6 + x ^ 4 / 24 + x ^ 5 / 120 +
        x ^ 6 / 720 + x ^ 7 / 5040 - x ^ 8 * (9 / 322560) ≤ Real.exp x := by
  have h := exp_near_poly8 x (by rwa [abs_of_nonneg h0])
  rw [abs_of_nonneg h0] at h
  have := (abs_sub_le_iff.1 h).2
  linarith

theorem exp_poly_ub (x : ℝ) (h0 : 0 ≤ x) (h1 : x ≤ 1) :
    Real.exp x ≤ 1 + x + x ^ 2 / 2 + x ^ 3 / 6 + x ^ 4 / 24 + x ^ 5 / 120 +
        x ^ 6 / 720 + x ^ 7 / 5040 + x ^ 8 * (9 / 322560) := by
  have h := exp_near_poly8 x (by rwa [abs_of_nonneg h0])
  rw [abs_of_nonneg h0] at h
  have := (abs_sub_le_iff.1 h).1
  linarith

theorem log_bounds_of_exp (q a b : ℝ) (hq : 0 < q)
    (ha : Real.exp a < q) (hb : q < Real.exp b) :
    a < Real.log q ∧ Real.log q < b :=
  ⟨(Real.lt_log_iff_exp_lt hq).2 ha, (Real.log_lt_iff_lt_exp hq).2 hb⟩

theorem log54_bounds :
    (0.2231425 : ℝ) < Real.log (5 / 4) ∧ Real.log (5 / 4) < 0.2231445 := by
  refine log_bounds_of_exp (5 / 4) 0.2231425 0.2231445 (by norm_num) ?_ ?_
  · have h := exp_poly_ub 0.2231425 (by norm_num) (by norm_num)
    have hnum : (1 : ℝ) + 0.2231425 + 0.2231425 ^ 2 / 2 + 0.2231425 ^ 3 / 6 +
        0.2231425 ^ 4 / 24 + 0.2231425 ^ 5 / 120 + 0.2231425 ^ 6 / 720 +
        0.2231425 ^ 7 / 5040 + 0.2231425 ^ 8 * (9 / 322560) < 5 / 4 := by
      norm_num
    linarith
  · have h := exp_poly_lb 0.2231445 (by norm_num) (by norm_num)
    have hnum : (5 : ℝ) / 4 < 1 + 0.2231445 + 0.2231445 ^ 2 / 2 +
        0.2231445 ^ 3 / 6 + 0.2231445 ^ 4 / 24 + 0.2231445 ^ 5 / 120 +
        0.2231445 ^ 6 / 720 + 0.2231445 ^ 7 / 5040 -
        0.2231445 ^ 8 * (9 / 322560) := by
      norm_num
    linarith

theorem log75_bounds :
    (0.3364712 : ℝ) < Real.log (7 / 5) ∧ Real.log (7 / 5) < 0.3364732 := by
  refine log_bounds_of_exp (7 / 5) 0.3364712 0.3364732 (by norm_num) ?_ ?_
  · have h := exp_poly_ub 0.3364712 (by norm_num) (by norm_num)
    have hnum : (1 : ℝ) + 0.3364712 + 0.3364712 ^ 2 / 2 + 0.3364712 ^ 3 / 6 +
        0.3364712 ^ 4 / 24 + 0.3364712 ^ 5 / 120 + 0.3364712 ^ 6 / 720 +
        0.3364712 ^ 7 / 5040 + 0.3364712 ^ 8 * (9 / 322560) < 7 / 5 := by
      norm_num
    linarith
  · have h := exp_poly_lb 0.3364732 (by norm_num) (by norm_num)
    have hnum : (7 : ℝ) / 5 < 1 + 0.3364732 + 0.3364732 ^ 2 / 2 +
        0.3364732 ^ 3 / 6 + 0.3364732 ^ 4 / 24 + 0.3364732 ^ 5 / 120 +
        0.3364732 ^ 6 / 720 + 0.3364732 ^ 7 / 5040 -
        0.3364732 ^ 8 * (9 / 322560) := by
      norm_num
    linarith

theorem log4940_bounds :
    (0.2029398 : ℝ) < Real.log (49 / 40) ∧ Real.log (49 / 40) < 0.2029418 := by
  refine log_bounds_of_exp (49 / 40) 0.2029398 0.2029418 (by norm_num) ?_ ?_
  · have h := exp_poly_ub 0.2029398 (by norm_num) (by norm_num)
    have hnum : (1 : ℝ) + 0.2029398 + 0.2029398 ^ 2 / 2 + 0.2029398 ^ 3 / 6 +
        0.2029398 ^ 4 / 24 + 0.2029398 ^ 5 / 120 + 0.2029398 ^ 6 / 720 +
        0.2029398 ^ 7 / 5040 + 0.2029398 ^ 8 * (9 / 322560) < 49 / 40 := by
      norm_num
    linarith
  · have h := exp_poly_lb 0.2029418 (by norm_num) (by norm_num)
    have hnum : (49 : ℝ) / 40 < 1 + 0.2029418 + 0.2029418 ^ 2 / 2 +
        0.2029418 ^ 3 / 6 + 0.2029418 ^ 4 / 24 + 0.2029418 ^ 5 / 120 +
        0.2029418 ^ 6 / 720 + 0.2029418 ^ 7 / 5040 -
        0.2029418 ^ 8 * (9 / 322560) := by
      norm_num
    linarith

theorem log4930_bounds :
    (0.4906219 : ℝ) < Real.log (49 / 30) ∧ Real.log (49 / 30) < 0.4906239 := by
  refine log_bounds_of_exp (49 / 30) 0.4906219 0.4906239 (by norm_num) ?_ ?_
  · have h := exp_poly_ub 0.4906219 (by norm_num) (by norm_num)
    have hnum : (1 : ℝ) + 0.4906219 + 0.4906219 ^ 2 / 2 + 0.4906219 ^ 3 / 6 +
        0.4906219 ^ 4 / 24 + 0.4906219 ^ 5 / 120 + 0.4906219 ^ 6 / 720 +
        0.4906219 ^ 7 / 5040 + 0.4906219 ^ 8 * (9 / 322560) < 49 / 30 := by
      norm_num
    linarith
  · have h := exp_poly_lb 0.4906239 (by norm_num) (by norm_num)
    have hnum : (49 : ℝ) / 30 < 1 + 0.4906239 + 0.4906239 ^ 2 / 2 +
        0.4906239 ^ 3 / 6 + 0.4906239 ^ 4 / 24 + 0.4906239 ^ 5 / 120 +
        0.4906239 ^ 6 / 720 + 0.4906239 ^ 7 / 5040 -
        0.4906239 ^ 8 * (9 / 322560) := by
      norm_num
    linarith

theorem log52_bounds :
    (0.9162896 : ℝ) < Real.log (5 / 2) ∧ Real.log (5 / 2) < 0.9162917 := by
  have hid : Real.log (5 / 2) = Real.log 2 + Real.log (5 / 4) := by
    rw [← Real.log_mul (by norm_num) (by norm_num)]
    norm_num
  have h2a := Real.log_two_gt_d9
  have h2b := Real.log_two_lt_d9
  have h54 := log54_bounds
  constructor <;> rw [hid] <;> linarith [h54.1, h54.2]

theorem log5_bounds :
    (1.6094368 : ℝ) < Real.log 5 ∧ Real.log 5 < 1.6094389 := by
  have hid : Real.log 5 = 2 * Real.log 2 + Real.log (5 / 4) := by
    have h4 : Real.log 4 = 2 * Real.log 2 := by
      rw [show (4 : ℝ) = 2 ^ 2 by norm_num, Real.log_pow]
      push_cast
      ring
    have hm : Real.log 4 + Real.log (5 / 4) = Real.log 5 := by
      rw [← Real.log_mul (by norm_num) (by norm_num)]
      norm_num
    linarith [h4, hm]
  have h2a := Real.log_two_gt_d9
  have h2b := Real.log_two_lt_d9
  have h54 := log54_bounds
  constructor <;> rw [hid] <;> linarith [h54.1, h54.2]

theorem log4910_bounds :
    (1.5892341 : ℝ) < Real.log (49 / 10) ∧ Real.log (49 / 10) < 1.5892362 := by
  have hid : Real.log (49 / 10) = 2 * Real.log 2 + Real.log (49 / 40) := by
    have h4 : Real.log 4 = 2 * Real.log 2 := by
      rw [show (4 : ℝ) = 2 ^ 2 by norm_num, Real.log_pow]
      push_cast
      ring
    have hm : Real.log 4 + Real.log (49 / 40) = Real.log (49 / 10) := by
      rw [← Real.log_mul (by norm_num) (by norm_num)]
      norm_num
    linarith [h4, hm]
  have h2a := Real.log_two_gt_d9
  have h2b := Real.log_two_lt_d9
  have h4940 := log4940_bounds
  constructor <;> rw [hid] <;> linarith [h4940.1, h4940.2]

theorem log9815_bounds :
    (1.8769162 : ℝ) < Real.log (98 / 15) ∧ Real.log (98 / 15) < 1.8769183 := by
  have hid : Real.log (98 / 15) = 2 * Real.log 2 + Real.log (49 / 30) := by
    have h4 : Real.log 4 = 2 * Real.log 2 := by
      rw [show (4 : ℝ) = 2 ^ 2 by norm_num, Real.log_pow]
      push_cast
      ring
    have hm : Real.log 4 + Real.log (49 / 30) = Real.log (98 / 15) := by
      rw [← Real.log_mul (by norm_num) (by norm_num)]
      norm_num
    linarith [h4, hm]
  have h2a := Real.log_two_gt_d9
  have h2b := Real.log_two_lt_d9
  have h4930 := log4930_bounds
  constructor <;> rw [hid] <;> linarith [h4930.1, h4930.2]

theorem t1_bounds :
    (0.1915605 : ℝ) < Real.log (5 / 2) * Real.log (7 / 5) / Real.log 5 ∧
    Real.log (5 / 2) * Real.log (7 / 5) / Real.log 5 < 0.1915625 := by
  have h52 := log52_bounds
  have h75 := log75_bounds
  have h5 := log5_bounds
  have h5pos : (0 : ℝ) < Real.log 5 := by linarith [h5.1]
  have p52 : (0 : ℝ) ≤ Real.log (5 / 2) := by linarith [h52.1]
  have p75 : (0 : ℝ) ≤ Real.log (7 / 5) := by linarith [h75.1]
  constructor
  · rw [lt_div_iff₀ h5pos]
    have hnum : (0.9162896 : ℝ) * 0.3364712 ≤
        Real.log (5 / 2) * Real.log (7 / 5) :=
      le_of_lt (mul_lt_mul'' h52.1 h75.1 (by norm_num) (by norm_num))
    have hden : (0.1915605 : ℝ) * Real.log 5 ≤ 0.1915605 * 1.6094389 := by
      nlinarith [h5.2]
    nlinarith [hnum, hden]
  · rw [div_lt_iff₀ h5pos]
    have hnum : Real.log (5 / 2) * Real.log (7 / 5) ≤
        (0.9162917 : ℝ) * 0.3364732 :=
      le_of_lt (mul_lt_mul'' h52.2 h75.2 p52 p75)
    have hden : (0.1915625 : ℝ) * 1.6094368 ≤ 0.1915625 * Real.log 5 := by
      nlinarith [h5.1]
    nlinarith [hnum, hden]

theorem t2_bounds :
    (0.2848986 : ℝ) <
      Real.log (49 / 10) * Real.log (7 / 5) / Real.log (98 / 15) ∧
    Real.log (49 / 10) * Real.log (7 / 5) / Real.log (98 / 15) < 0.2849011 := by
  have h4910 := log4910_bounds
  have h75 := log75_bounds
  have h9815 := log9815_bounds
  have hpos : (0 : ℝ) < Real.log (98 / 15) := by linarith [h9815.1]
  have p1 : (0 : ℝ) ≤ Real.log (49 / 10) := by linarith [h4910.1]
  have p2 : (0 : ℝ) ≤ Real.log (7 / 5) := by linarith [h75.1]
  constructor
  · rw [lt_div_iff₀ hpos]
    have hnum : (1.5892341 : ℝ) * 0.3364712 ≤
        Real.log (49 / 10) * Real.log (7 / 5) :=
      le_of_lt (mul_lt_mul'' h4910.1 h75.1 (by norm_num) (by norm_num))
    have hden : (0.2848986 : ℝ) * Real.log (98 / 15) ≤
        0.2848986 * 1.8769183 := by
      nlinarith [h9815.2]
    nlinarith [hnum, hden]
  · rw [div_lt_iff₀ hpos]
    have hnum : Real.log (49 / 10) * Real.log (7 / 5) ≤
        (1.5892362 : ℝ) * 0.3364732 :=
      le_of_lt (mul_lt_mul'' h4910.2 h75.2 p1 p2)
    have hden : (0.2849011 : ℝ) * 1.8769162 ≤
        0.2849011 * Real.log (98 / 15) := by
      nlinarith [h9815.1]
    nlinarith [hnum, hden]

theorem interp_curve1_eq :
    interpLL 0.007 0.5 0.0098 0.1 0.2 =
      0.007 * Real.exp (Real.log (5 / 2) * Real.log (7 / 5) / Real.log 5) := by
  rw [interpLL]
  have h1 : Real.log 0.2 - Real.log 0.5 = -Real.log (5 / 2) := by
    rw [← Real.log_div (by norm_num) (by norm_num),
      show (0.2 : ℝ) / 0.5 = ((5 : ℝ) / 2)⁻¹ by norm_num, Real.log_inv]
  have h2 : Real.log 0.0098 - Real.log 0.007 = Real.log (7 / 5) := by
    rw [← Real.log_div (by norm_num) (by norm_num)]
    norm_num
  have h3 : Real.log 0.1 - Real.log 0.5 = -Real.log 5 := by
    rw [← Real.log_div (by norm_num) (by norm_num),
      show (0.1 : ℝ) / 0.5 = ((5 : ℝ))⁻¹ by norm_num, Real.log_inv]
  rw [h1, h2, h3,
    show -Real.log (5 / 2) * Real.log (7 / 5) / -Real.log 5 =
      Real.log (5 / 2) * Real.log (7 / 5) / Real.log 5 by ring,
    Real.exp_add, Real.exp_log (by norm_num : (0 : ℝ) < 0.007)]

theorem interp_curve1_bound :
    |interpLL 0.007 0.5 0.0098 0.1 0.2 - 0.00847798| ≤ 1e-6 := by
  rw [interp_curve1_eq]
  have ht := t1_bounds
  have hlo := exp_poly_lb 0.1915605 (by norm_num) (by norm_num)
  have hhi := exp_poly_ub 0.1915625 (by norm_num) (by norm_num)
  have hm1 : Real.exp 0.1915605 <
      Real.exp (Real.log (5 / 2) * Real.log (7 / 5) / Real.log 5) :=
    Real.exp_lt_exp.2 ht.1
  have hm2 : Real.exp (Real.log (5 / 2) * Real.log (7 / 5) / Real.log 5) <
      Real.exp 0.1915625 :=
    Real.exp_lt_exp.2 ht.2
  rw [abs_le]
  constructor <;> nlinarith [hlo, hhi, hm1, hm2]

theorem interp_curve2_eq :
    interpLL 0.005 0.98 0.007 0.15 0.2 =
      0.005 * Real.exp
        (Real.log (49 / 10) * Real.log (7 / 5) / Real.log (98 / 15)) := by
  rw [interpLL]
  have h1 : Real.log 0.2 - Real.log 0.98 = -Real.log (49 / 10) := by
    rw [← Real.log_div (by norm_num) (by norm_num),
      show (0.2 : ℝ) / 0.98 = ((49 : ℝ) / 10)⁻¹ by norm_num, Real.log_inv]
  have h2 : Real.log 0.007 - Real.log 0.005 = Real.log (7 / 5) := by
    rw [← Real.log_div (by norm_num) (by norm_num)]
    norm_num
  have h3 : Real.log 0.15 - Real.log 0.98 = -Real.log (98 / 15) := by
    rw [← Real.log_div (by norm_num) (by norm_num),
      show (0.15 : ℝ) / 0.98 = ((98 : ℝ) / 15)⁻¹ by norm_num, Real.log_inv]
  rw [h1, h2, h3,
    show -Real.log (49 / 10) * Real.log (7 / 5) / -Real.log (98 / 15) =
      Real.log (49 / 10) * Real.log (7 / 5) / Real.log (98 / 15) by ring,
    Real.exp_add, Real.exp_log (by norm_num : (0 : ℝ) < 0.005)]

theorem interp_curve2_bound :
    |interpLL 0.005 0.98 0.007 0.15 0.2 - 0.00664814| ≤ 1e-6 := by
  rw [interp_curve2_eq]
  have ht := t2_bounds
  have hlo := exp_poly_lb 0.2848986 (by norm_num) (by norm_num)
  have hhi := exp_poly_ub 0.2849011 (by norm_num) (by norm_num)
  have hm1 : Real.exp 0.2848986 < Real.exp
      (Real.log (49 / 10) * Real.log (7 / 5) / Real.log (98 / 15)) :=
    Real.exp_lt_exp.2 ht.1
  have hm2 : Real.exp
      (Real.log (49 / 10) * Real.log (7 / 5) / Real.log (98 / 15)) <
      Real.exp 0.2849011 :=
    Real.exp_lt_exp.2 ht.2
  rw [abs_le]
  constructor <;> nlinarith [hlo, hhi, hm1, hm2]

theorem hmv_curve1 :
    hazardMapValue [0.8, 0.5, 0.1] [0.005, 0.007, 0.0098] 0.2 =
      interpLL 0.007 0.5 0.0098 0.1 0.2 := by
  have he : findEqIdx (0.2 : ℝ) [0.8, 0.5, 0.1] = none := by
    norm_num [findEqIdx]
  have hb : findBracketIdx (0.2 : ℝ) [0.8, 0.5, 0.1] = some 1 := by
    norm_num [findBracketIdx]
  rw [hazardMapValue, if_neg (by norm_num [List.headI]),
    if_neg (by norm_num [List.getLastI]), he, hb]
  rfl

theorem hmv_curve2 :
    hazardMapValue [0.98, 0.15, 0.05] [0.005, 0.007, 0.0098] 0.2 =
      interpLL 0.005 0.98 0.007 0.15 0.2 := by
  have he : findEqIdx (0.2 : ℝ) [0.98, 0.15, 0.05] = none := by
    norm_num [findEqIdx]
  have hb : findBracketIdx (0.2 : ℝ) [0.98, 0.15, 0.05] = some 0 := by
    norm_num [findBracketIdx]
  rw [hazardMapValue, if_neg (by norm_num [List.headI]),
    if_neg (by norm_num [List.getLastI]), he, hb]
  rfl

theorem hmv_curve3 :
    hazardMapValue [0.6, 0.5, 0.4] [0.005, 0.007, 0.0098] 0.2 = 0.0098 := by
  rw [hazardMapValue, if_neg (by norm_num [List.headI]),
    if_pos (by norm_num [List.getLastI])]
  norm_num [List.getLastI]

theorem hmv_curve4 :
    hazardMapValue [0.1, 0.01, 0.001] [0.005, 0.007, 0.0098] 0.2 = 0 := by
  rw [hazardMapValue, if_pos (by norm_num [List.headI])]

theorem hmv_curve5 :
    hazardMapValue [0.8, 0.2, 0.1] [0.005, 0.007, 0.0098] 0.2 = 0.007 := by
  have he : findEqIdx (0.2 : ℝ) [0.8, 0.2, 0.1] = some 1 := by
    norm_num [findEqIdx]
  rw [hazardMapValue, if_neg (by norm_num [List.headI]),
    if_neg (by norm_num [List.getLastI]), he]
  rfl

/-- Claim C2: for a non-increasing hazard curve with values in [0,1], the
extractor returns 0 when the threshold strictly exceeds the value at the
lowest level and the highest tabulated level when the threshold is strictly
below the value at the highest level; on the five test curves over levels
[0.005, 0.007, 0.0098] at threshold 0.2 it returns
[0.00847798, 0.00664814, 0.0098, 0, 0.007] within tolerance 1e-6. -/
theorem compute_hazard_maps_spec :
    (∀ curve imls : List ℝ, ∀ poe : ℝ, curve ≠ [] →
      List.Chain' (fun x y => x ≥ y) curve →
      (∀ x ∈ curve, 0 ≤ x ∧ x ≤ 1) →
      poe > curve.headI → hazardMapValue curve imls poe = 0) ∧
    (∀ curve imls : List ℝ, ∀ poe : ℝ, curve ≠ [] →
      List.Chain' (fun x y => x ≥ y) curve →
      (∀ x ∈ curve, 0 ≤ x ∧ x ≤ 1) →
      poe < curve.getLastI →
        hazardMapValue curve imls poe = imls.getLastI) ∧
    (∃ r1 r2 r3 r4 r5 : ℝ,
      compute_hazard_maps
        [[0.8, 0.5, 0.1], [0.98, 0.15, 0.05], [0.6, 0.5, 0.4],
         [0.1, 0.01, 0.001], [0.8, 0.2, 0.1]]
        [0.005, 0.007, 0.0098] [0.2] = [[r1, r2, r3, r4, r5]] ∧
      |r1 - 0.00847798| ≤ 1e-6 ∧ |r2 - 0.00664814| ≤ 1e-6 ∧
      |r3 - 0.0098| ≤ 1e-6 ∧ |r4 - 0| ≤ 1e-6 ∧ |r5 - 0.007| ≤ 1e-6) := by
  refine ⟨?_, ?_, ?_⟩
  · intro curve imls poe hne hmono hrange hgt
    rw [hazardMapValue, if_pos hgt]
  · intro curve imls poe hne hmono hrange hlt
    have hhl := getLastI_le_headI_of_chain curve hne hmono
    have hnotgt : ¬ poe > curve.headI :=
      not_lt.2 (le_of_lt (lt_of_lt_of_le hlt hhl))
    rw [hazardMapValue, if_neg hnotgt, if_pos hlt]
  · refine ⟨hazardMapValue [0.8, 0.5, 0.1] [0.005, 0.007, 0.0098] 0.2,
      hazardMapValue [0.98, 0.15, 0.05] [0.005, 0.007, 0.0098] 0.2,
      hazardMapValue [0.6, 0.5, 0.4] [0.005, 0.007, 0.0098] 0.2,
      hazardMapValue [0.1, 0.01, 0.001] [0.005, 0.007, 0.0098] 0.2,
      hazardMapValue [0.8, 0.2, 0.1] [0.005, 0.007, 0.0098] 0.2,
      by simp [compute_hazard_maps], ?_, ?_, ?_, ?_, ?_⟩
    · rw [hmv_curve1]
      exact interp_curve1_bound
    · rw [hmv_curve2]
      exact interp_curve2_bound
    · rw [hmv_curve3]
      norm_num
    · rw [hmv_curve4]
      norm_num
    · rw [hmv_curve5]
      norm_num

theorem compute_hazard_maps_spec_witness :
    (([0.8, 0.5, 0.1] : List ℝ) ≠ [] ∧
     List.Chain' (fun x y => x ≥ y) ([0.8, 0.5, 0.1] : List ℝ) ∧
     (∀ x ∈ ([0.8, 0.5, 0.1] : List ℝ), 0 ≤ x ∧ x ≤ 1) ∧
     (0.9 : ℝ) > ([0.8, 0.5, 0.1] : List ℝ).headI) ∧
    hazardMapValue [0.8, 0.5, 0.1] [0.005, 0.007, 0.0098] 0.9 = 0 := by
  have h1 : ([0.8, 0.5, 0.1] : List ℝ) ≠ [] := by simp
  have h2 : List.Chain' (fun x y => x ≥ y) ([0.8, 0.5, 0.1] : List ℝ) := by
    norm_num [List.chain'_cons, List.chain'_singleton]
  have h3 : ∀ x ∈ ([0.8, 0.5, 0.1] : List ℝ), 0 ≤ x ∧ x ≤ 1 := by
    intro x hx
    fin_cases hx <;> norm_num
  have h4 : (0.9 : ℝ) > ([0.8, 0.5, 0.1] : List ℝ).headI := by
    norm_num [List.headI]
  exact ⟨⟨h1, h2, h3, h4⟩,
    compute_hazard_maps_spec.1 [0.8, 0.5, 0.1] [0.005, 0.007, 0.0098] 0.9
      h1 h2 h3 h4⟩
